import Mathlib

/-!
# Verification of the incremental ingestion / curated-merge pipeline

Shallow embedding of `apps/api/lib/container/scripts/ingest_job.py` (class
`IngestJob`) together with the storage helper
`apps/api/lib/container/scripts/r2_storage.py` (class `R2FS`), and proofs of
the specified properties of the pipeline.

Modelling conventions:
* A data row (a raw Socrata JSON record or a normalized record, i.e. one row
  of a pandas `DataFrame`) is an association list from field name to string
  value.  A field that is absent from a row corresponds to a `NaN` cell in
  the `DataFrame` built from the row dicts; `getField` returning `none`
  models that `NaN`.
* Timestamps are measured as integer microseconds since the Unix epoch.
  `parseIso` models Python's `datetime.fromisoformat` (after the code's
  `replace('Z', '+00:00')` preprocessing) on the subset of ISO-8601 this
  pipeline produces and consumes; `datetime.timedelta` subtraction becomes
  integer subtraction.  The round trip through `isoformat()` and the SoQL
  `$where` string is modelled as the identity on the underlying instant.
* The R2 object store (a mounted filesystem) is an association list from key
  (path string) to file content.
-/

/-- A record: association list from field name to value, mirroring the row
dicts that `ingest_job.py` feeds to `pd.DataFrame`. -/
abbrev Row := List (String × String)

/-- Cell access: first binding of the field, `none` when the field is absent
(the `NaN` cell of the corresponding `DataFrame`). -/
def getField (r : Row) (c : String) : Option String :=
  match r with
  | [] => none
  | (k, v) :: rest => if k = c then some v else getField rest c

/-- `c ∈ df.columns` for the `DataFrame` built from `rows`: the columns are
the union of the row dicts' keys, so the column exists iff some row carries
the field. -/
def hasCol (rows : List Row) (c : String) : Bool :=
  rows.any fun r => (getField r c).isSome

/-- The update-timestamp column name used by `ingest_job.py` (lines 66, 189):
the literal `":updated_at"`. -/
def UPDATED_AT : String := ":updated_at"

/-- Value of the sort column `":updated_at"` for a row. -/
def tsVal (r : Row) : Option String := getField r UPDATED_AT

/-- Lexicographic order on character lists by code point, the order Python
(and hence pandas) uses to compare the string cells of a column. -/
def strLEchars : List Char → List Char → Bool
  | [], _ => true
  | _ :: _, [] => false
  | a :: as, b :: bs =>
    if a.toNat < b.toNat then true
    else if b.toNat < a.toNat then false
    else strLEchars as bs

/-- Lexicographic string order by code point. -/
def strLE (x y : String) : Bool := strLEchars x.data y.data

/-- Row comparison used by `df_final.sort_values(by=":updated_at")`
(ingest_job.py line 191): ascending by the `:updated_at` cell, with `NaN`
cells sorted last (pandas default `na_position='last'`).  String cells
compare lexicographically, as pandas compares string columns. -/
def tsLEb (a b : Row) : Bool :=
  match tsVal a, tsVal b with
  | some x, some y => strLE x y
  | some _, none => true
  | none, some _ => false
  | none, none => true

theorem strLEchars_total : ∀ as bs : List Char,
    strLEchars as bs = true ∨ strLEchars bs as = true := by
  intro as
  induction as with
  | nil => intro bs; left; simp [strLEchars]
  | cons a as ih =>
    intro bs
    rcases bs with _ | ⟨b, bs⟩
    · right; simp [strLEchars]
    · unfold strLEchars
      rcases Nat.lt_trichotomy a.toNat b.toNat with h | h | h
      · left; simp [h]
      · have h1 : ¬ a.toNat < b.toNat := by omega
        have h2 : ¬ b.toNat < a.toNat := by omega
        simpa [h1, h2] using ih bs
      · right; simp [h, Nat.lt_asymm h]

theorem strLEchars_trans : ∀ as bs cs : List Char,
    strLEchars as bs = true → strLEchars bs cs = true →
      strLEchars as cs = true := by
  intro as
  induction as with
  | nil => intro bs cs _ _; simp [strLEchars]
  | cons a as ih =>
    intro bs cs hab hbc
    rcases bs with _ | ⟨b, bs⟩
    · simp [strLEchars] at hab
    · rcases cs with _ | ⟨c, cs⟩
      · simp [strLEchars] at hbc
      · unfold strLEchars at hab hbc ⊢
        by_cases h1 : a.toNat < b.toNat
        · by_cases h2 : b.toNat < c.toNat
          · have h3 : a.toNat < c.toNat := Nat.lt_trans h1 h2
            simp [h3]
          · by_cases h4 : c.toNat < b.toNat
            · simp [h2, h4] at hbc
            · have h3 : a.toNat < c.toNat := by omega
              simp [h3]
        · by_cases h5 : b.toNat < a.toNat
          · simp [h1, h5] at hab
          · simp [h1, h5] at hab
            by_cases h2 : b.toNat < c.toNat
            · have h3 : a.toNat < c.toNat := by omega
              simp [h3]
            · by_cases h4 : c.toNat < b.toNat
              · simp [h2, h4] at hbc
              · have h6 : ¬ a.toNat < c.toNat := by omega
                have h7 : ¬ c.toNat < a.toNat := by omega
                simp [h2, h4] at hbc
                simp only [h6, if_neg, h7, if_false]
                exact ih bs cs hab hbc

/-- Propositional form of `tsLEb`, for `List.insertionSort`. -/
def tsRel (a b : Row) : Prop := tsLEb a b = true

instance : DecidableRel tsRel := fun a b => inferInstanceAs (Decidable (_ = true))

instance : IsTotal Row tsRel := by
  constructor
  intro a b
  show tsLEb a b = true ∨ tsLEb b a = true
  unfold tsLEb
  rcases tsVal a with _ | x <;> rcases tsVal b with _ | y <;> simp
  exact strLEchars_total _ _

instance : IsTrans Row tsRel := by
  constructor
  intro a b c
  unfold tsRel tsLEb
  rcases tsVal a with _ | x <;> rcases tsVal b with _ | y <;> rcases tsVal c with _ | z <;>
    simp
  exact strLEchars_trans _ _ _

/-- `df.drop_duplicates(subset=[pk], keep='last')` (ingest_job.py lines
192/195): a row is kept iff no later row has the same `pk` cell.  Two `NaN`
cells count as equal, exactly as pandas `duplicated` treats `NaN` keys
(modelled here by `Option.none == Option.none` being `true`). -/
def dropDupLast (pk : String) : List Row → List Row
  | [] => []
  | r :: rest =>
    if rest.any (fun s => getField s pk == getField r pk) then dropDupLast pk rest
    else r :: dropDupLast pk rest

/-- The dedup step of `IngestJob.process_dataset` (ingest_job.py lines
187-195): only applies when the `pk` column exists; sorts by `:updated_at`
first when that column exists. -/
def dedupe (pk : String) (rows : List Row) : List Row :=
  if hasCol rows pk then
    if hasCol rows UPDATED_AT then dropDupLast pk (List.insertionSort tsRel rows)
    else dropDupLast pk rows
  else rows

/-- `pd.concat([df_existing, df_delta])` guarded by the `df_existing.empty`
check (ingest_job.py lines 175-178). -/
def concatFrames (existing delta : List Row) : List Row :=
  if existing.isEmpty then delta else existing ++ delta

/-- The merge of the existing curated rows with the normalized delta
(ingest_job.py lines 174-195): concatenate existing-then-delta, then
deduplicate by primary key. -/
def mergeCurated (pk : String) (existing delta : List Row) : List Row :=
  dedupe pk (concatFrames existing delta)

theorem concatFrames_eq_append (existing delta : List Row) :
    concatFrames existing delta = existing ++ delta := by
  unfold concatFrames
  rcases existing with _ | ⟨r, rest⟩ <;> simp

/-! ## Properties of the dedup step -/

theorem dropDupLast_sublist (pk : String) :
    ∀ l : List Row, List.Sublist (dropDupLast pk l) l := by
  intro l
  induction l with
  | nil => simp [dropDupLast]
  | cons r rest ih =>
    unfold dropDupLast
    by_cases h : rest.any (fun s => getField s pk == getField r pk)
    · simp only [h, if_pos]
      exact List.Sublist.cons r ih
    · simp only [h, if_neg, Bool.not_eq_true]
      simpa using List.Sublist.cons₂ r ih

theorem mem_of_mem_dropDupLast {pk : String} {l : List Row} {r : Row}
    (h : r ∈ dropDupLast pk l) : r ∈ l :=
  (dropDupLast_sublist pk l).mem h

/-- After `drop_duplicates(subset=[pk], keep='last')` the `pk` cells are
pairwise distinct (with the two-`NaN`s-equal convention). -/
theorem dropDupLast_keys_nodup (pk : String) :
    ∀ l : List Row, ((dropDupLast pk l).map (fun r => getField r pk)).Nodup := by
  intro l
  induction l with
  | nil => simp [dropDupLast]
  | cons r rest ih =>
    unfold dropDupLast
    by_cases h : rest.any (fun s => getField s pk == getField r pk)
    · simpa [h] using ih
    · simp only [h, if_neg, Bool.not_eq_true, List.map_cons, List.nodup_cons]
      refine ⟨?_, ih⟩
      intro hmem
      rcases List.mem_map.mp hmem with ⟨s, hs, hkey⟩
      have hs' : s ∈ rest := mem_of_mem_dropDupLast hs
      have : rest.any (fun s => getField s pk == getField r pk) = true :=
        List.any_eq_true.mpr ⟨s, hs', beq_iff_eq.mpr hkey⟩
      simp [this] at h

/-- Every input `pk` value is still represented after the dedup. -/
theorem exists_key_mem_dropDupLast (pk : String) :
    ∀ {l : List Row} {s : Row}, s ∈ l →
      ∃ r ∈ dropDupLast pk l, getField r pk = getField s pk := by
  intro l
  induction l with
  | nil => intro s hs; simp at hs
  | cons r rest ih =>
    intro s hs
    unfold dropDupLast
    by_cases h : rest.any (fun t => getField t pk == getField r pk)
    · simp only [h, if_pos]
      rcases List.mem_cons.mp hs with hsr | hsrest
      · rcases List.any_eq_true.mp h with ⟨t, ht, hkey⟩
        rcases ih ht with ⟨u, hu, hukey⟩
        exact ⟨u, hu, by rw [hukey, beq_iff_eq.mp hkey, hsr]⟩
      · exact ih hsrest
    · simp only [h, if_neg, Bool.not_eq_true]
      rcases List.mem_cons.mp hs with hsr | hsrest
      · exact ⟨r, List.mem_cons_self _ _, by rw [hsr]⟩
      · rcases ih hsrest with ⟨u, hu, hukey⟩
        exact ⟨u, List.mem_cons_of_mem _ hu, hukey⟩

/-- On a list sorted by the update timestamp, the row kept for a `pk` value
is maximal in timestamp order among all rows sharing that value. -/
theorem dropDupLast_max_of_sorted {pk : String} :
    ∀ {l : List Row}, List.Sorted tsRel l →
      ∀ {r s : Row}, r ∈ dropDupLast pk l → s ∈ l →
        getField s pk = getField r pk → tsRel s r := by
  intro l
  induction l with
  | nil => intro _ r s hr hs; simp [dropDupLast] at hr
  | cons x rest ih =>
    intro hsorted r s hr hs hkey
    have hx : ∀ y ∈ rest, tsRel x y := (List.sorted_cons.mp hsorted).1
    have hrest : List.Sorted tsRel rest := (List.sorted_cons.mp hsorted).2
    unfold dropDupLast at hr
    by_cases h : rest.any (fun t => getField t pk == getField x pk)
    · simp only [h, if_pos] at hr
      rcases List.mem_cons.mp hs with hsx | hsrest
      · -- s is the head x; the kept row r is in rest, so x ≤ r in ts order
        have hrrest : r ∈ rest := mem_of_mem_dropDupLast hr
        exact hsx ▸ hx r hrrest
      · exact ih hrest hr hsrest hkey
    · simp only [h, if_neg, Bool.not_eq_true] at hr
      rcases List.mem_cons.mp hr with hrx | hrrest
      · rcases List.mem_cons.mp hs with hsx | hsrest
        · subst hrx; rw [hsx]
          have : IsTotal Row tsRel := inferInstance
          rcases this.total r r with h1 | h1 <;> exact h1
        · exfalso
          have : rest.any (fun t => getField t pk == getField x pk) = true :=
            List.any_eq_true.mpr ⟨s, hsrest, beq_iff_eq.mpr (hrx ▸ hkey)⟩
          simp [this] at h
      · rcases List.mem_cons.mp hs with hsx | hsrest
        · exfalso
          have hrmem : r ∈ rest := mem_of_mem_dropDupLast hrrest
          have : rest.any (fun t => getField t pk == getField x pk) = true :=
            List.any_eq_true.mpr ⟨r, hrmem, beq_iff_eq.mpr (by rw [← hkey, hsx])⟩
          simp [this] at h
        · exact ih hrest hrrest hsrest hkey

/-- In the merge order existing-then-delta, when a delta row shares the
kept row's `pk` value, the kept row is a delta row: later occurrences shadow
earlier ones under `keep='last'`. -/
theorem dropDupLast_append_delta_wins {pk : String} :
    ∀ {ex dl : List Row} {r : Row}, r ∈ dropDupLast pk (ex ++ dl) →
      (∃ d ∈ dl, getField d pk = getField r pk) → r ∈ dl := by
  intro ex
  induction ex with
  | nil => intro dl r hr _; simpa using mem_of_mem_dropDupLast hr
  | cons e ex' ih =>
    intro dl r hr hd
    rw [List.cons_append] at hr
    unfold dropDupLast at hr
    by_cases h : (ex' ++ dl).any (fun t => getField t pk == getField e pk)
    · simp only [h, if_pos] at hr
      exact ih hr hd
    · simp only [h, if_neg, Bool.not_eq_true] at hr
      rcases List.mem_cons.mp hr with hre | hrrest
      · exfalso
        rcases hd with ⟨d, hdmem, hdkey⟩
        have : (ex' ++ dl).any (fun t => getField t pk == getField e pk) = true :=
          List.any_eq_true.mpr
            ⟨d, List.mem_append_right _ hdmem, beq_iff_eq.mpr (hre ▸ hdkey)⟩
        simp [this] at h
      · exact ih hrrest hd

/-! ## Claims about the merge (C3, C4, C5) -/

/-- Claim C3: merging existing curated rows with a delta, when every row
carries the primary-key field and the update-timestamp field, yields a table
with (1) at most one row per primary-key value, (2) only input rows, (3)
every input key still represented, and (4) each surviving row carrying a
maximal update-timestamp among the input rows sharing its key. -/
theorem c3_dedup_last_write_wins (pk : String) (existing delta : List Row)
    (hpk : ∀ r ∈ existing ++ delta, (getField r pk).isSome)
    (hts : ∀ r ∈ existing ++ delta, (getField r UPDATED_AT).isSome) :
    ((mergeCurated pk existing delta).map (fun r => getField r pk)).Nodup ∧
    (∀ r ∈ mergeCurated pk existing delta, r ∈ existing ++ delta) ∧
    (∀ s ∈ existing ++ delta, ∃ r ∈ mergeCurated pk existing delta,
        getField r pk = getField s pk) ∧
    (∀ r ∈ mergeCurated pk existing delta, ∀ s ∈ existing ++ delta,
        getField s pk = getField r pk →
        ∃ a b, getField s UPDATED_AT = some a ∧ getField r UPDATED_AT = some b ∧
          strLE a b = true) := by
  have hbase : mergeCurated pk existing delta = dedupe pk (existing ++ delta) := by
    rw [mergeCurated, concatFrames_eq_append]
  rcases hl : existing ++ delta with _ | ⟨x, rest⟩
  · rw [hbase, hl]
    simp [dedupe, hasCol]
  · have hcolpk : hasCol (existing ++ delta) pk = true := by
      refine List.any_eq_true.mpr ⟨x, ?_, ?_⟩
      · rw [hl]; exact List.mem_cons_self _ _
      · exact hpk x (by rw [hl]; exact List.mem_cons_self _ _)
    have hcolts : hasCol (existing ++ delta) UPDATED_AT = true := by
      refine List.any_eq_true.mpr ⟨x, ?_, ?_⟩
      · rw [hl]; exact List.mem_cons_self _ _
      · exact hts x (by rw [hl]; exact List.mem_cons_self _ _)
    rw [← hl] at *
    have hout : mergeCurated pk existing delta =
        dropDupLast pk (List.insertionSort tsRel (existing ++ delta)) := by
      rw [hbase, dedupe, hcolpk, hcolts]; simp
    have hperm : List.Perm (List.insertionSort tsRel (existing ++ delta))
        (existing ++ delta) := List.perm_insertionSort tsRel _
    have hsorted : List.Sorted tsRel (List.insertionSort tsRel (existing ++ delta)) :=
      List.sorted_insertionSort tsRel _
    refine ⟨?_, ?_, ?_, ?_⟩
    · rw [hout]; exact dropDupLast_keys_nodup pk _
    · intro r hr
      rw [hout] at hr
      exact hperm.mem_iff.mp (mem_of_mem_dropDupLast hr)
    · intro s hs
      rw [hout]
      exact exists_key_mem_dropDupLast pk (hperm.mem_iff.mpr hs)
    · intro r hr s hs hkey
      have hrin : r ∈ existing ++ delta := by
        rw [hout] at hr
        exact hperm.mem_iff.mp (mem_of_mem_dropDupLast hr)
      have hrel : tsRel s r := by
        rw [hout] at hr
        exact dropDupLast_max_of_sorted hsorted hr (hperm.mem_iff.mpr hs) hkey
      rcases Option.isSome_iff_exists.mp (hts s hs) with ⟨a, ha⟩
      rcases Option.isSome_iff_exists.mp (hts r hrin) with ⟨b, hb⟩
      refine ⟨a, b, ha, hb, ?_⟩
      have : tsLEb s r = true := hrel
      unfold tsLEb at this
      rwa [show tsVal s = some a from ha, show tsVal r = some b from hb] at this

/-- Witness for C3, including the spec's concrete example: existing row
`{pk=1, ts=10, v="a"}` merged with delta row `{pk=1, ts=12, v="b"}` yields
exactly the delta row. -/
theorem c3_dedup_last_write_wins_witness :
    (∀ r ∈ ([[("pk", "1"), (":updated_at", "10"), ("v", "a")]] : List Row) ++
        [[("pk", "1"), (":updated_at", "12"), ("v", "b")]],
      (getField r "pk").isSome) ∧
    (∀ r ∈ ([[("pk", "1"), (":updated_at", "10"), ("v", "a")]] : List Row) ++
        [[("pk", "1"), (":updated_at", "12"), ("v", "b")]],
      (getField r UPDATED_AT).isSome) ∧
    mergeCurated "pk" [[("pk", "1"), (":updated_at", "10"), ("v", "a")]]
        [[("pk", "1"), (":updated_at", "12"), ("v", "b")]] =
      [[("pk", "1"), (":updated_at", "12"), ("v", "b")]] ∧
    ((mergeCurated "pk" [[("pk", "1"), (":updated_at", "10"), ("v", "a")]]
        [[("pk", "1"), (":updated_at", "12"), ("v", "b")]]).map
      (fun r => getField r "pk")).Nodup := by
  refine ⟨by decide, by decide, by decide, ?_⟩
  exact (c3_dedup_last_write_wins "pk"
    [[("pk", "1"), (":updated_at", "10"), ("v", "a")]]
    [[("pk", "1"), (":updated_at", "12"), ("v", "b")]]
    (by decide) (by decide)).1

/-- Claim C4: when the `:updated_at` column is absent from the concatenated
rows, the merge deduplicates in plain concatenation order existing-then-delta
with `keep='last'`; in particular the surviving rows form a subsequence of
the input, each input key stays represented exactly once, and whenever a
delta row shares a surviving row's key, the survivor is a delta row. -/
theorem c4_no_timestamp_delta_wins (pk : String) (existing delta : List Row)
    (hnots : hasCol (existing ++ delta) UPDATED_AT = false)
    (hcolpk : hasCol (existing ++ delta) pk = true) :
    mergeCurated pk existing delta = dropDupLast pk (existing ++ delta) ∧
    List.Sublist (mergeCurated pk existing delta) (existing ++ delta) ∧
    ((mergeCurated pk existing delta).map (fun r => getField r pk)).Nodup ∧
    (∀ s ∈ existing ++ delta, ∃ r ∈ mergeCurated pk existing delta,
        getField r pk = getField s pk) ∧
    (∀ r ∈ mergeCurated pk existing delta,
        (∃ d ∈ delta, getField d pk = getField r pk) → r ∈ delta) := by
  have hout : mergeCurated pk existing delta = dropDupLast pk (existing ++ delta) := by
    rw [mergeCurated, concatFrames_eq_append, dedupe, hcolpk, hnots]
    simp
  refine ⟨hout, ?_, ?_, ?_, ?_⟩
  · rw [hout]; exact dropDupLast_sublist pk _
  · rw [hout]; exact dropDupLast_keys_nodup pk _
  · intro s hs
    rw [hout]
    exact exists_key_mem_dropDupLast pk hs
  · intro r hr hd
    rw [hout] at hr
    exact dropDupLast_append_delta_wins hr hd

/-- Witness for C4: one existing row and one delta row share `pk = 1` and no
timestamp field; the delta row wins. -/
theorem c4_no_timestamp_delta_wins_witness :
    hasCol (([[("pk", "1"), ("v", "a")]] : List Row) ++
        [[("pk", "1"), ("v", "b")]]) UPDATED_AT = false ∧
    hasCol (([[("pk", "1"), ("v", "a")]] : List Row) ++
        [[("pk", "1"), ("v", "b")]]) "pk" = true ∧
    mergeCurated "pk" [[("pk", "1"), ("v", "a")]] [[("pk", "1"), ("v", "b")]] =
      [[("pk", "1"), ("v", "b")]] ∧
    (∀ r ∈ mergeCurated "pk" [[("pk", "1"), ("v", "a")]] [[("pk", "1"), ("v", "b")]],
        (∃ d ∈ ([[("pk", "1"), ("v", "b")]] : List Row),
           getField d "pk" = getField r "pk") → r ∈ ([[("pk", "1"), ("v", "b")]] : List Row)) := by
  refine ⟨by decide, by decide, by decide, ?_⟩
  exact (c4_no_timestamp_delta_wins "pk" [[("pk", "1"), ("v", "a")]]
    [[("pk", "1"), ("v", "b")]] (by decide) (by decide)).2.2.2.2

/-- Counterexample to claim C5 as stated: with existing row `{pk=1, v="a"}`
and delta rows `{v="b"}`, `{v="c"}` (both lacking the primary-key field), the
merge drops the row `{v="b"}`: with `pk` present on some row, the `pk`
column exists and pandas `drop_duplicates` treats the `NaN` keys of the two
keyless rows as equal, keeping only the last. -/
theorem c5_counterexample :
    mergeCurated "pk" [[("pk", "1"), ("v", "a")]] [[("v", "b")], [("v", "c")]] =
      [[("pk", "1"), ("v", "a")], [("v", "c")]] ∧
    ([("v", "b")] : Row) ∉
      mergeCurated "pk" [[("pk", "1"), ("v", "a")]] [[("v", "b")], [("v", "c")]] := by
  constructor
  · decide
  · decide

/-- Claim C5 as amended: a row lacking the primary-key field is retained
as-is only when no row in the merge carries the field (then the `pk` column
does not exist and the dedup step is skipped entirely).  When at least one
row carries the field, all keyless rows are deduplicated together as though
they shared one missing key: at most one keyless row survives, and at least
one survives whenever some input row is keyless. -/
theorem c5_keyless_rows_dedup (pk : String) (existing delta : List Row) :
    (hasCol (existing ++ delta) pk = false →
      mergeCurated pk existing delta = existing ++ delta) ∧
    (hasCol (existing ++ delta) pk = true →
      ((mergeCurated pk existing delta).filter
          (fun r => (getField r pk).isNone)).length ≤ 1 ∧
      (∀ s ∈ existing ++ delta, (getField s pk).isNone →
        ∃ r ∈ mergeCurated pk existing delta, (getField r pk).isNone)) := by
  constructor
  · intro hno
    rw [mergeCurated, concatFrames_eq_append, dedupe, hno]
    simp
  · intro hyes
    have hnodup : ((mergeCurated pk existing delta).map (fun r => getField r pk)).Nodup := by
      rw [mergeCurated, concatFrames_eq_append, dedupe, hyes]
      by_cases hts : hasCol (existing ++ delta) UPDATED_AT <;>
        simp [hts, dropDupLast_keys_nodup]
    constructor
    · -- at most one `none` key can appear in a nodup key list
      have hgen : ∀ l : List Row, ((l.map (fun r => getField r pk)).Nodup) →
          (l.filter (fun r => (getField r pk).isNone)).length ≤ 1 := by
        intro l
        induction l with
        | nil => simp
        | cons r rest ih =>
          intro hnd
          rw [List.map_cons, List.nodup_cons] at hnd
          by_cases h : (getField r pk).isNone
          · have h' : getField r pk = none := Option.isNone_iff_eq_none.mp h
            have hrest : rest.filter (fun s => (getField s pk).isNone) = [] := by
              rw [List.filter_eq_nil_iff]
              intro s hs hcontra
              exact hnd.1 (List.mem_map.mpr ⟨s, hs,
                by rw [Option.isNone_iff_eq_none.mp hcontra, h']⟩)
            simp [h, hrest]
          · simpa [h] using ih hnd.2
      exact hgen _ hnodup
    · intro s hs hsnone
      have hmem : ∃ r ∈ mergeCurated pk existing delta,
          getField r pk = getField s pk := by
        rw [mergeCurated, concatFrames_eq_append, dedupe, hyes]
        by_cases hts : hasCol (existing ++ delta) UPDATED_AT
        · simp only [hts, if_pos]
          exact exists_key_mem_dropDupLast pk
            ((List.perm_insertionSort tsRel _).mem_iff.mpr hs)
        · simp only [hts, if_neg, Bool.not_eq_true]
          exact exists_key_mem_dropDupLast pk hs
      rcases hmem with ⟨r, hr, hkey⟩
      exact ⟨r, hr, by rw [hkey]; exact hsnone⟩

/-- Witness for the amended C5, at the counterexample's input. -/
theorem c5_keyless_rows_dedup_witness :
    hasCol (([[("pk", "1"), ("v", "a")]] : List Row) ++
        [[("v", "b")], [("v", "c")]]) "pk" = true ∧
    ((mergeCurated "pk" [[("pk", "1"), ("v", "a")]] [[("v", "b")], [("v", "c")]]).filter
        (fun r => (getField r "pk").isNone)).length ≤ 1 := by
  refine ⟨by decide, ?_⟩
  exact ((c5_keyless_rows_dedup "pk" [[("pk", "1"), ("v", "a")]]
    [[("v", "b")], [("v", "c")]]).2 (by decide)).1

/-! ## Timestamps, watermark parsing and the safety lag (ingest_job.py 101-113)

`datetime.fromisoformat` is modelled by an executable parser over the
character list of the string, yielding microseconds since the Unix epoch
(Python `datetime` has microsecond resolution).  The code first does
`watermark.replace('Z', '+00:00')`, so a trailing `Z` is accepted.  A naive
timestamp (no offset) is taken as UTC, matching how the pipeline produces
and consumes these strings.  A string the parser rejects corresponds to
`fromisoformat` raising, which `process_dataset` catches, leaving
`fetch_since = None`. -/

/-- Days from 1970-01-01 to the given civil date (proleptic Gregorian),
after Howard Hinnant's `days_from_civil` algorithm, which is what the
`datetime` library computes. -/
def daysFromCivil (y : Int) (m d : Nat) : Int :=
  let yAdj : Int := if m ≤ 2 then y - 1 else y
  let era : Int := Int.fdiv yAdj 400
  let yoe : Int := yAdj - era * 400
  let mp : Int := (Int.ofNat m + 9) % 12
  let doy : Int := (153 * mp + 2) / 5 + (Int.ofNat d - 1)
  let doe : Int := yoe * 365 + yoe / 4 - yoe / 100 + doy
  era * 146097 + doe - 719468

def isLeapYear (y : Int) : Bool := (y % 4 == 0 && y % 100 != 0) || y % 400 == 0

def daysInMonth (y : Int) (m : Nat) : Nat :=
  if m == 2 then (if isLeapYear y then 29 else 28)
  else if m == 4 || m == 6 || m == 9 || m == 11 then 30
  else 31

/-- Read exactly `n` decimal digits, accumulating their value. -/
def readDigits : Nat → Nat → List Char → Option (Nat × List Char)
  | 0, acc, cs => some (acc, cs)
  | n + 1, acc, c :: cs =>
    if c.isDigit then readDigits n (acc * 10 + (c.toNat - 48)) cs else none
  | _ + 1, _, [] => none

def expectChar (c : Char) : List Char → Option (List Char)
  | d :: cs => if d = c then some cs else none
  | [] => none

/-- Read a fractional-second part `.d{1..6}`, returning microseconds. -/
def readFrac : List Char → Option (Nat × List Char)
  | '.' :: cs =>
    let digits := cs.takeWhile Char.isDigit
    let rest := cs.dropWhile Char.isDigit
    if 1 ≤ digits.length ∧ digits.length ≤ 6 then
      let v := digits.foldl (fun acc c => acc * 10 + (c.toNat - 48)) 0
      some (v * 10 ^ (6 - digits.length), rest)
    else none
  | _ => none

/-- UTC-offset suffix in minutes: empty (naive), `Z`, or `±HH:MM`. -/
def parseOffset : List Char → Option Int
  | [] => some 0
  | ['Z'] => some 0
  | '+' :: cs => do
    let (h, cs) ← readDigits 2 0 cs
    let cs ← expectChar ':' cs
    let (mi, cs) ← readDigits 2 0 cs
    if cs.isEmpty ∧ h ≤ 23 ∧ mi ≤ 59 then some (Int.ofNat (h * 60 + mi)) else none
  | '-' :: cs => do
    let (h, cs) ← readDigits 2 0 cs
    let cs ← expectChar ':' cs
    let (mi, cs) ← readDigits 2 0 cs
    if cs.isEmpty ∧ h ≤ 23 ∧ mi ≤ 59 then some (-Int.ofNat (h * 60 + mi)) else none
  | _ => none

/-- Microseconds since the Unix epoch of a civil date-time with UTC offset
`offMin` minutes. -/
def epochMicros (y : Int) (mo d h mi s : Nat) (frac : Nat) (offMin : Int) : Int :=
  (daysFromCivil y mo d * 86400 + (Int.ofNat (h * 3600 + mi * 60 + s)) - offMin * 60)
      * 1000000 + Int.ofNat frac

/-- Time-of-day plus offset suffix, given the already-parsed date. -/
def parseTimePart (y : Int) (mo d : Nat) (cs : List Char) : Option Int := do
  let (h, cs) ← readDigits 2 0 cs
  let cs ← expectChar ':' cs
  let (mi, cs) ← readDigits 2 0 cs
  match expectChar ':' cs with
  | some cs => do
    let (s, cs) ← readDigits 2 0 cs
    let (frac, cs) ←
      match readFrac cs with
      | some (f, rest) => some (f, rest)
      | none => some (0, cs)
    let off ← parseOffset cs
    if h ≤ 23 ∧ mi ≤ 59 ∧ s ≤ 59 then some (epochMicros y mo d h mi s frac off)
    else none
  | none => do
    let off ← parseOffset cs
    if h ≤ 23 ∧ mi ≤ 59 then some (epochMicros y mo d h mi 0 0 off) else none

/-- `datetime.fromisoformat` on the character list: `YYYY-MM-DD` optionally
followed by `THH:MM[:SS[.ffffff]]` and an offset (`Z` via the code's
`replace`). -/
def parseIsoChars (cs : List Char) : Option Int := do
  let (y, cs) ← readDigits 4 0 cs
  let cs ← expectChar '-' cs
  let (mo, cs) ← readDigits 2 0 cs
  let cs ← expectChar '-' cs
  let (d, cs) ← readDigits 2 0 cs
  if 1 ≤ mo ∧ mo ≤ 12 ∧ 1 ≤ d ∧ d ≤ daysInMonth (Int.ofNat y) mo then
    match cs with
    | [] => some (epochMicros (Int.ofNat y) mo d 0 0 0 0 0)
    | 'T' :: cs => parseTimePart (Int.ofNat y) mo d cs
    | _ => none
  else none

/-- The parse step of ingest_job.py line 106:
`datetime.fromisoformat(watermark.replace('Z', '+00:00'))`, as microseconds
since the epoch; `none` models the raised `ValueError`. -/
def parseIso (s : String) : Option Int := parseIsoChars s.data

/-- `SAFETY_LAG_HOURS = 2` (ingest_job.py line 28). -/
def SAFETY_LAG_HOURS : Nat := 2

/-- The safety lag as microseconds: `timedelta(hours=SAFETY_LAG_HOURS)`. -/
def SAFETY_LAG_MICROS : Int := Int.ofNat (SAFETY_LAG_HOURS * 3600 * 1000000)

/-- Python truthiness of the optional watermark string (`if not watermark`
treats both `None` and `""` as false). -/
def pyTruthy (w : Option String) : Bool :=
  match w with
  | none => false
  | some s => !(s == "")

/-- Mode selection, ingest_job.py lines 92-99: bootstrap iff the declared
mode is `"bootstrap"`, or the mode is `"auto"` and no watermark exists. -/
def is_bootstrap (mode : String) (watermark : Option String) : Bool :=
  if mode == "bootstrap" then true
  else if mode == "auto" && !(pyTruthy watermark) then true
  else false

/-- The fetch-since instant, ingest_job.py lines 101-111: when not
bootstrapping and a watermark exists, parse it and subtract the safety lag;
a parse failure is caught (`except`) and leaves the since unset, and the
value is otherwise `None`.  The instant is what the `isoformat()` string
passed into `fetch_socrata_pages` denotes. -/
def computeFetchSince (isB : Bool) (watermark : Option String) : Option Int :=
  if !isB && pyTruthy watermark then
    match parseIso (watermark.getD "") with
    | some t => some (t - SAFETY_LAG_MICROS)
    | none => none
  else none

/-- The `$where` clause sent to Socrata, ingest_job.py lines 68-70: either
absent, or `:updated_at > '{since}'`. -/
inductive SodaWhere where
  | all : SodaWhere
  | updatedAtGt (bound : Int) : SodaWhere
deriving DecidableEq

def whereOfSince : Option Int → SodaWhere
  | none => SodaWhere.all
  | some b => SodaWhere.updatedAtGt b

/-- Server-side semantics of the `$where` clause on a row whose
`:updated_at` instant is `v`. -/
def sodaKeeps : SodaWhere → Int → Bool
  | SodaWhere.all, _ => true
  | SodaWhere.updatedAtGt b, v => decide (b < v)

/-! ## Claims about the watermark (C6, C7) -/

/-- Claim C6: on an incremental run whose stored watermark parses, the
since-instant handed to the paginated fetch is the watermark minus the fixed
2-hour safety lag, and the resulting `$where` filter keeps exactly the rows
whose `:updated_at` is strictly greater than that lagged instant. -/
theorem c6_safety_lag (w : String) (t : Int) (hw : parseIso w = some t) :
    is_bootstrap "incremental" (some w) = false ∧
    computeFetchSince (is_bootstrap "incremental" (some w)) (some w) =
      some (t - SAFETY_LAG_MICROS) ∧
    (∀ v : Int,
       sodaKeeps (whereOfSince
           (computeFetchSince (is_bootstrap "incremental" (some w)) (some w))) v = true ↔
         t - SAFETY_LAG_MICROS < v) := by
  have hne : ¬ w = "" := by
    intro h
    rw [h] at hw
    simp [parseIso, parseIsoChars, readDigits] at hw
  have htruthy : pyTruthy (some w) = true := by
    simp [pyTruthy, hne]
  have hboot : is_bootstrap "incremental" (some w) = false := by
    simp [is_bootstrap]
  have hsince : computeFetchSince false (some w) = some (t - SAFETY_LAG_MICROS) := by
    simp [computeFetchSince, htruthy, hw]
  refine ⟨hboot, by rw [hboot]; exact hsince, ?_⟩
  intro v
  rw [hboot, hsince]
  simp [whereOfSince, sodaKeeps]

/-- Witness for C6, at the spec's example: watermark
`2025-01-10T10:00:00Z` yields the since-instant denoted by
`2025-01-10T08:00:00Z`. -/
theorem c6_safety_lag_witness :
    parseIso "2025-01-10T10:00:00Z" = some 1736503200000000 ∧
    computeFetchSince (is_bootstrap "incremental" (some "2025-01-10T10:00:00Z"))
        (some "2025-01-10T10:00:00Z") = some (1736503200000000 - SAFETY_LAG_MICROS) ∧
    parseIso "2025-01-10T08:00:00Z" = some (1736503200000000 - SAFETY_LAG_MICROS) := by
  refine ⟨by decide, ?_, by decide⟩
  exact (c6_safety_lag "2025-01-10T10:00:00Z" 1736503200000000 (by decide)).2.1

/-- Claim C7 fails on the code (code bug): an unparsable stored watermark is
caught with only a logged warning, `fetch_since` stays `None`, and the run
proceeds with an unfiltered full fetch — the exact silent degradation the
spec forbids.  This theorem evaluates the embedded code at the failing
input: the resulting `$where` clause keeps every row. -/
theorem c7_malformed_watermark_full_fetch :
    parseIso "not-a-timestamp" = none ∧
    is_bootstrap "incremental" (some "not-a-timestamp") = false ∧
    computeFetchSince (is_bootstrap "incremental" (some "not-a-timestamp"))
        (some "not-a-timestamp") = none ∧
    whereOfSince (computeFetchSince (is_bootstrap "incremental" (some "not-a-timestamp"))
        (some "not-a-timestamp")) = SodaWhere.all ∧
    (∀ v : Int, sodaKeeps (whereOfSince (computeFetchSince
        (is_bootstrap "incremental" (some "not-a-timestamp"))
        (some "not-a-timestamp"))) v = true) := by
  refine ⟨by decide, by decide, by decide, by decide, ?_⟩
  intro v
  have h : computeFetchSince (is_bootstrap "incremental" (some "not-a-timestamp"))
      (some "not-a-timestamp") = none := by decide
  rw [h]
  simp [whereOfSince, sodaKeeps]

/-! ## The paginated fetch (ingest_job.py 61-83, claim C9)

`fetch_socrata_pages` drives `SodaClient.get_json` with `$limit = 2000` and
an `$offset` advanced by the limit after every full page.  The remote source
is abstracted as `getPage : offset → page` (the `$where`/`$order` parameters
are fixed for the whole loop).  The unbounded Python `while True` loop is
embedded with a fuel parameter; the claim's termination statement becomes
fuel-independence of the result. -/

/-- `limit = 2000` (ingest_job.py line 64). -/
def PAGE_LIMIT : Nat := 2000

/-- The body of the `while True` loop: stop on an empty page; extend the
accumulator; stop when the page is short; otherwise advance the offset by
the page size. -/
def fetch_loop {α : Type} (getPage : Nat → List α) : Nat → Nat → List α → List α
  | 0, _, acc => acc
  | fuel + 1, offset, acc =>
    let rows := getPage offset
    if rows.isEmpty then acc
    else if rows.length < PAGE_LIMIT then acc ++ rows
    else fetch_loop getPage fuel (offset + PAGE_LIMIT) (acc ++ rows)

/-- `IngestJob.fetch_socrata_pages`: run the loop from offset 0 with an
empty accumulator. -/
def fetch_socrata_pages {α : Type} (getPage : Nat → List α) (fuel : Nat) : List α :=
  fetch_loop getPage fuel 0 []

theorem range_flatMap_succ {α : Type} (f : Nat → List α) (n : Nat) :
    (List.range (n + 1)).flatMap f = f 0 ++ (List.range n).flatMap (fun j => f (j + 1)) := by
  rw [List.range_succ_eq_map]
  simp only [List.flatMap_cons, List.flatMap_map]

theorem fetch_loop_spec {α : Type} (getPage : Nat → List α) :
    ∀ (k : Nat) (off : Nat) (acc : List α) (fuel : Nat), k < fuel →
      (∀ j < k, (getPage (off + j * PAGE_LIMIT)).length = PAGE_LIMIT) →
      (getPage (off + k * PAGE_LIMIT)).length < PAGE_LIMIT →
      fetch_loop getPage fuel off acc =
        acc ++ (List.range (k + 1)).flatMap (fun j => getPage (off + j * PAGE_LIMIT)) := by
  intro k
  induction k with
  | zero =>
    intro off acc fuel hfuel _ hshort
    rcases fuel with _ | fuel
    · omega
    · show fetch_loop getPage (fuel + 1) off acc = _
      unfold fetch_loop
      simp only [Nat.zero_mul, Nat.add_zero] at hshort
      by_cases hemp : (getPage off).isEmpty
      · have hnil : getPage off = [] := List.isEmpty_iff.mp hemp
        rw [if_pos hemp, show List.range 1 = [0] from rfl]
        simp [hnil]
      · rw [if_neg hemp, if_pos hshort, show List.range 1 = [0] from rfl]
        simp
  | succ k ih =>
    intro off acc fuel hfuel hfull hshort
    rcases fuel with _ | fuel
    · omega
    · show fetch_loop getPage (fuel + 1) off acc = _
      unfold fetch_loop
      have h0 : (getPage off).length = PAGE_LIMIT := by
        have := hfull 0 (Nat.succ_pos k)
        simpa using this
      have hne : ¬ (getPage off).isEmpty := by
        intro h
        rw [List.isEmpty_iff.mp h] at h0
        simp [PAGE_LIMIT] at h0
      have hnotshort : ¬ (getPage off).length < PAGE_LIMIT := by
        rw [h0]; omega
      rw [if_neg hne, if_neg hnotshort]
      have hrec := ih (off + PAGE_LIMIT) (acc ++ getPage off) fuel (by omega)
        (fun j hj => by
          have := hfull (j + 1) (by omega)
          rw [show off + (j + 1) * PAGE_LIMIT = off + PAGE_LIMIT + j * PAGE_LIMIT by ring]
            at this
          exact this)
        (by
          rw [show off + PAGE_LIMIT + k * PAGE_LIMIT = off + (k + 1) * PAGE_LIMIT by ring]
          exact hshort)
      rw [hrec, List.append_assoc]
      congr 1
      conv_rhs => rw [range_flatMap_succ]
      have hfun : (fun j => getPage (off + PAGE_LIMIT + j * PAGE_LIMIT)) =
          (fun j : Nat => getPage (off + (j + 1) * PAGE_LIMIT)) := by
        funext j
        congr 1
        ring
      rw [hfun]
      simp

/-- Claim C9: when some page at an offset multiple of the page size (2000)
comes back shorter than the page size (an empty page included), the fetch
loop terminates — the result no longer depends on the fuel bound — and it
returns the pages concatenated in offset order, the offset having advanced
by the page size after each full page. -/
theorem c9_pagination_terminates {α : Type} (getPage : Nat → List α) (k : Nat)
    (hfull : ∀ j < k, (getPage (j * PAGE_LIMIT)).length = PAGE_LIMIT)
    (hshort : (getPage (k * PAGE_LIMIT)).length < PAGE_LIMIT) :
    ∀ fuel : Nat, k < fuel →
      fetch_socrata_pages getPage fuel =
        (List.range (k + 1)).flatMap (fun j => getPage (j * PAGE_LIMIT)) := by
  intro fuel hfuel
  rw [fetch_socrata_pages]
  have h := fetch_loop_spec getPage k 0 [] fuel hfuel
    (fun j hj => by simpa using hfull j hj)
    (by simpa using hshort)
  rw [h]
  simp

/-- Witness for C9, at the spec's termination scenario: the page at offset 0
holds exactly 2000 rows and the page at offset 2000 is empty, so the loop
stops after the confirming empty-page call, with the same result for every
sufficient fuel bound. -/
theorem c9_pagination_terminates_witness :
    (∀ j < 1, ((fun off => if off = 0 then List.replicate 2000 () else [])
        (j * PAGE_LIMIT)).length = PAGE_LIMIT) ∧
    ((fun off => if off = 0 then List.replicate 2000 () else ([] : List Unit))
        (1 * PAGE_LIMIT)).length < PAGE_LIMIT ∧
    fetch_socrata_pages
        (fun off => if off = 0 then List.replicate 2000 () else []) 2 =
      (List.range 2).flatMap
        (fun j => (fun off => if off = 0 then List.replicate 2000 () else [])
          (j * PAGE_LIMIT)) ∧
    fetch_socrata_pages
        (fun off => if off = 0 then List.replicate 2000 () else []) 5 =
      fetch_socrata_pages
        (fun off => if off = 0 then List.replicate 2000 () else []) 2 := by
  have h1 : ∀ j < 1, ((fun off => if off = 0 then List.replicate 2000 () else [])
      (j * PAGE_LIMIT)).length = PAGE_LIMIT := by
    intro j hj
    interval_cases j
    show (if (0 : Nat) * PAGE_LIMIT = 0 then List.replicate 2000 () else []).length =
      PAGE_LIMIT
    rw [if_pos (by norm_num), List.length_replicate]
    rfl
  have h2 : ((fun off => if off = 0 then List.replicate 2000 () else ([] : List Unit))
      (1 * PAGE_LIMIT)).length < PAGE_LIMIT := by
    show (if (1 : Nat) * PAGE_LIMIT = 0 then List.replicate 2000 ()
        else ([] : List Unit)).length < PAGE_LIMIT
    rw [if_neg (by simp [PAGE_LIMIT])]
    simp [PAGE_LIMIT]
  refine ⟨h1, h2, ?_, ?_⟩
  · exact c9_pagination_terminates _ 1 h1 h2 2 (by omega)
  · rw [c9_pagination_terminates _ 1 h1 h2 5 (by omega),
        c9_pagination_terminates _ 1 h1 h2 2 (by omega)]

/-! ## The R2 store and `process_dataset` (claims C8, C10)

The mounted R2 bucket is an association list from key (path) to file
content; writes through `R2FS` overwrite or create the key.  File contents
are typed by what the pipeline stores: a raw JSON row dump, the run
metadata record, or a curated parquet table. -/

/-- `meta` written at ingest_job.py lines 125-129 (`extracted_at` carried as
an opaque string, here the `now` parameter). -/
structure RunMeta where
  row_count : Nat
  extracted_at : String
  bootstrap_flag : Bool
deriving DecidableEq

inductive Content where
  | jsonRows (rows : List Row) : Content
  | metaJson (m : RunMeta) : Content
  | table (rows : List Row) : Content
deriving DecidableEq

/-- The mounted bucket: key to content. -/
abbrev R2State := List (String × Content)

/-- Write (create or overwrite) a key. -/
def setKey : R2State → String → Content → R2State
  | [], k, c => [(k, c)]
  | kc :: rest, k, c => if kc.1 == k then (k, c) :: rest else kc :: setKey rest k c

/-- Read a key. -/
def getKey : R2State → String → Option Content
  | [], _ => none
  | kc :: rest, k => if kc.1 == k then some kc.2 else getKey rest k

/-- Key layout, ingest_job.py lines 25-26, 95, 121, 130, 148, 205. -/
def curated_dir_key (key : String) : String := "curated/" ++ key ++ "/parquet"

def curated_data_key (key : String) : String := curated_dir_key key ++ "/data.parquet"

def r2_raw_key (key runId : String) (isB : Bool) : String :=
  "raw/" ++ key ++ "/" ++ runId ++ "/" ++ (if isB then "full" else "delta") ++ ".json"

def raw_meta_key (key runId : String) : String :=
  "raw/" ++ key ++ "/" ++ runId ++ "/meta.json"

/-- Does the key lie under the directory (`R2FS.list(dir, recursive=True)`
enumerates exactly the files below `dir/`)? -/
def listStarts : List Char → List Char → Bool
  | _, [] => true
  | [], _ :: _ => false
  | a :: as, b :: bs => a == b && listStarts as bs

def keyInDir (k dir : String) : Bool := listStarts k.data (dir ++ "/").data

/-- Loading the existing curated table, ingest_job.py lines 156-172: list
every file under the curated directory, read each as parquet (a non-table
file raises and is skipped by the `except` branch), and concatenate. -/
def readCurated (st : R2State) (dir : String) : List Row :=
  (st.filter (fun kc => keyInDir kc.1 dir)).flatMap
    (fun kc => match kc.2 with
      | Content.table rows => rows
      | _ => [])

/-- `IngestJob.process_dataset` (ingest_job.py lines 85-209) as a state
transformer over the mounted bucket.  The remote source is `src : since
instant → offset → page`; the extractor (`config["extractor"]`, an external
collaborator) maps the raw rows to normalized rows; `now` stands for
`datetime.utcnow().isoformat()`; `fuel` bounds the fetch loop. -/
def process_dataset (fuel : Nat) (runId mode now key pk : String)
    (src : Option Int → Nat → List Row) (extractor : List Row → List Row)
    (watermark : Option String) (st : R2State) : R2State :=
  let isB := is_bootstrap mode watermark
  let fetchSince := computeFetchSince isB watermark
  let raw_rows := fetch_socrata_pages (src fetchSince) fuel
  let st1 := setKey st (r2_raw_key key runId isB) (Content.jsonRows raw_rows)
  let st2 := setKey st1 (raw_meta_key key runId)
    (Content.metaJson ⟨raw_rows.length, now, isB⟩)
  let delta := extractor raw_rows
  if delta.isEmpty then st2
  else
    let existing := if isB then [] else readCurated st2 (curated_dir_key key)
    let final := mergeCurated pk existing delta
    setKey st2 (curated_data_key key) (Content.table final)

/-! ### Key disequalities -/

theorem string_data_append (s t : String) : (s ++ t).data = s.data ++ t.data := rfl

theorem string_eq_of_data_eq {s t : String} (h : s.data = t.data) : s = t := by
  cases s
  cases t
  exact congrArg String.mk h

theorem curated_ne_raw (a b : String) : ("curated/" ++ a) ≠ ("raw/" ++ b) := by
  intro h
  have hd : ("curated/" ++ a).data = ("raw/" ++ b).data := by rw [h]
  rw [string_data_append, string_data_append] at hd
  have hc : "curated/".data = ['c', 'u', 'r', 'a', 't', 'e', 'd', '/'] := rfl
  have hr : "raw/".data = ['r', 'a', 'w', '/'] := rfl
  rw [hc, hr] at hd
  simp at hd

theorem append_ne_of_ne {a b : String} (s : String) (h : a ≠ b) :
    (s ++ a) ≠ (s ++ b) := by
  intro hcontra
  apply h
  have hd : (s ++ a).data = (s ++ b).data := by rw [hcontra]
  rw [string_data_append, string_data_append] at hd
  exact string_eq_of_data_eq (List.append_cancel_left hd)

theorem curated_data_key_eq (key : String) :
    curated_data_key key = "curated/" ++ (key ++ "/parquet/data.parquet") := by
  apply string_eq_of_data_eq
  simp [curated_data_key, curated_dir_key, string_data_append]

theorem r2_raw_key_eq (key runId : String) (isB : Bool) :
    r2_raw_key key runId isB =
      "raw/" ++ (key ++ ("/" ++ (runId ++ ("/" ++
        ((if isB then "full" else "delta") ++ ".json"))))) := by
  apply string_eq_of_data_eq
  simp [r2_raw_key, string_data_append]

theorem raw_meta_key_eq (key runId : String) :
    raw_meta_key key runId =
      "raw/" ++ (key ++ ("/" ++ (runId ++ ("/" ++ "meta.json")))) := by
  apply string_eq_of_data_eq
  simp [raw_meta_key, string_data_append]

theorem curated_data_ne_raw (key key' runId : String) (isB : Bool) :
    curated_data_key key ≠ r2_raw_key key' runId isB := by
  rw [curated_data_key_eq, r2_raw_key_eq]
  exact curated_ne_raw _ _

theorem curated_data_ne_meta (key key' runId : String) :
    curated_data_key key ≠ raw_meta_key key' runId := by
  rw [curated_data_key_eq, raw_meta_key_eq]
  exact curated_ne_raw _ _

theorem raw_key_ne_meta (key runId : String) (isB : Bool) :
    r2_raw_key key runId isB ≠ raw_meta_key key runId := by
  rw [r2_raw_key_eq, raw_meta_key_eq]
  apply append_ne_of_ne
  apply append_ne_of_ne
  apply append_ne_of_ne
  apply append_ne_of_ne
  intro h
  have hd := congrArg String.data h
  rw [string_data_append] at hd
  cases isB <;> simp at hd

/-! ### `setKey` / `getKey` laws -/

theorem getKey_setKey_self (st : R2State) (k : String) (c : Content) :
    getKey (setKey st k c) k = some c := by
  induction st with
  | nil => simp [setKey, getKey]
  | cons kc rest ih =>
    unfold setKey
    by_cases h : kc.1 == k
    · simp [h, getKey]
    · simp only [h, if_neg, Bool.not_eq_true]
      unfold getKey
      simp [h, ih]

theorem getKey_setKey_other (st : R2State) (k k' : String) (c : Content)
    (h : k' ≠ k) : getKey (setKey st k c) k' = getKey st k' := by
  have hk : ¬ ((k : String) == k') := by
    intro hc
    exact h (beq_iff_eq.mp hc).symm
  induction st with
  | nil => simp [setKey, getKey, hk]
  | cons kc rest ih =>
    unfold setKey
    by_cases hkc : kc.1 == k
    · have hkck' : ¬ (kc.1 == k') := by
        intro hc
        exact h (by rw [← beq_iff_eq.mp hc, beq_iff_eq.mp hkc])
      simp [getKey, hk, hkck', beq_iff_eq.mp hkc]
    · simp only [hkc, if_neg, Bool.not_eq_true]
      unfold getKey
      by_cases hkck' : kc.1 == k'
      · simp [hkck']
      · simp [hkck', ih]

/-! ## Claims about `process_dataset` as a state transformer (C8, C10) -/

/-- Claim C8: when the delta is empty after normalization, `process_dataset`
returns before the upsert step (ingest_job.py lines 143-145), so every
curated table location is left exactly as it was — only the raw snapshot and
its metadata were written. -/
theorem c8_empty_delta_noop (fuel : Nat) (runId mode now key pk : String)
    (src : Option Int → Nat → List Row) (extractor : List Row → List Row)
    (watermark : Option String) (st : R2State)
    (hdelta : extractor (fetch_socrata_pages
        (src (computeFetchSince (is_bootstrap mode watermark) watermark)) fuel) = []) :
    ∀ key' : String,
      getKey (process_dataset fuel runId mode now key pk src extractor watermark st)
          (curated_data_key key') = getKey st (curated_data_key key') := by
  intro key'
  simp only [process_dataset]
  rw [hdelta]
  simp only [List.isEmpty_nil, if_pos]
  rw [getKey_setKey_other _ _ _ _ (curated_data_ne_meta key' key runId),
      getKey_setKey_other _ _ _ _ (curated_data_ne_raw key' key runId _)]

/-- Witness for C8: a store holding one curated table; the source returns no
rows, the extractor keeps them as-is, and the curated key is untouched. -/
theorem c8_empty_delta_noop_witness :
    (id (fun rows => rows) : List Row → List Row) (fetch_socrata_pages
        ((fun _ _ => []) (computeFetchSince
          (is_bootstrap "incremental" (some "2025-01-10T10:00:00Z"))
          (some "2025-01-10T10:00:00Z"))) 1) = [] ∧
    getKey (process_dataset 1 "run1" "incremental" "2025-01-11T00:00:00" "contractors"
        "contractor_id" (fun _ _ => []) (fun rows => rows)
        (some "2025-01-10T10:00:00Z")
        [(curated_data_key "contractors", Content.table [[("contractor_id", "1")]])])
        (curated_data_key "contractors") =
      getKey [(curated_data_key "contractors", Content.table [[("contractor_id", "1")]])]
        (curated_data_key "contractors") := by
  constructor
  · rfl
  · exact c8_empty_delta_noop 1 "run1" "incremental" "2025-01-11T00:00:00" "contractors"
      "contractor_id" (fun _ _ => []) (fun rows => rows) (some "2025-01-10T10:00:00Z")
      [(curated_data_key "contractors", Content.table [[("contractor_id", "1")]])]
      (by rfl) "contractors"

/-- Claim C10: a run with declared mode `"incremental"` and no stored
watermark is not treated as bootstrap — the fetch carries no since filter
(an unfiltered full fetch), yet the raw snapshot lands under the
`delta`-tagged key and the metadata records the bootstrap flag as false. -/
theorem c10_incremental_without_watermark (fuel : Nat) (runId now key pk : String)
    (src : Option Int → Nat → List Row) (extractor : List Row → List Row)
    (st : R2State) :
    is_bootstrap "incremental" none = false ∧
    computeFetchSince (is_bootstrap "incremental" none) none = none ∧
    getKey (process_dataset fuel runId "incremental" now key pk src extractor none st)
        (r2_raw_key key runId false) =
      some (Content.jsonRows (fetch_socrata_pages (src none) fuel)) ∧
    getKey (process_dataset fuel runId "incremental" now key pk src extractor none st)
        (raw_meta_key key runId) =
      some (Content.metaJson
        ⟨(fetch_socrata_pages (src none) fuel).length, now, false⟩) := by
  have hboot : is_bootstrap "incremental" none = false := by rfl
  have hsince : computeFetchSince (is_bootstrap "incremental" none) none = none := by rfl
  refine ⟨hboot, hsince, ?_, ?_⟩
  · simp only [process_dataset]
    rw [hboot, show computeFetchSince false none = none from rfl]
    by_cases hemp : (extractor (fetch_socrata_pages (src none) fuel)).isEmpty
    · rw [if_pos hemp]
      rw [getKey_setKey_other _ _ _ _ (raw_key_ne_meta key runId false)]
      exact getKey_setKey_self _ _ _
    · rw [if_neg hemp]
      rw [getKey_setKey_other _ _ _ _ (Ne.symm (curated_data_ne_raw key key runId false)),
          getKey_setKey_other _ _ _ _ (raw_key_ne_meta key runId false)]
      exact getKey_setKey_self _ _ _
  · simp only [process_dataset]
    rw [hboot, show computeFetchSince false none = none from rfl]
    by_cases hemp : (extractor (fetch_socrata_pages (src none) fuel)).isEmpty
    · rw [if_pos hemp]
      exact getKey_setKey_self _ _ _
    · rw [if_neg hemp]
      rw [getKey_setKey_other _ _ _ _ (Ne.symm (curated_data_ne_meta key key runId))]
      exact getKey_setKey_self _ _ _

/-! ## The run loop (ingest_job.py 255-278, claim C2)

`IngestJob.run` iterates the target datasets; the per-dataset body (read
the watermark state, `process_dataset`, write the new state) has no
`try`/`except`, so any exception raised inside it propagates out of the
loop.  The body is abstracted as an `Except`-valued step over an arbitrary
job state; `Except.error` models an uncaught Python exception. -/

/-- The keys of `DATASET_CONFIG` (ingest_job.py lines 31-40): only
`"contractors"` is configured in the source. -/
def DATASET_CONFIG_keys : List String := ["contractors"]

/-- `IngestJob.run`'s dataset loop: skip unconfigured datasets, run the
per-dataset body, and let any error propagate — there is no handler, so the
loop stops at the first failing dataset. -/
def IngestJob_run {σ : Type} (cfg : List String)
    (body : String → σ → Except String σ) : List String → σ → Except String σ
  | [], st => Except.ok st
  | ds :: rest, st =>
    if cfg.contains ds then
      match body ds st with
      | Except.ok st' => IngestJob_run cfg body rest st'
      | Except.error e => Except.error e
    else IngestJob_run cfg body rest st

/-- Claim C2 fails on the code (code bug): a failure while processing one
configured dataset aborts the whole loop — the run returns the bare error,
the remaining datasets are never attempted, and no success/failure summary
exists.  This theorem evaluates the embedded loop at a failing dataset: the
result is the propagated error, independent of `rest`. -/
theorem c2_failure_not_isolated {σ : Type} (cfg : List String)
    (body : String → σ → Except String σ) (d : String) (rest : List String)
    (st : σ) (e : String) (hd : cfg.contains d = true)
    (hb : body d st = Except.error e) :
    IngestJob_run cfg body (d :: rest) st = Except.error e := by
  unfold IngestJob_run
  rw [if_pos hd, hb]

/-- Witness for C2: a two-dataset run where `"contractors"` fails; the
second dataset is never processed (the accumulated log stays empty inside
the error result) and the run yields the bare error. -/
theorem c2_failure_not_isolated_witness :
    (DATASET_CONFIG_keys ++ ["permits"]).contains "contractors" = true ∧
    ((fun d (log : List String) =>
        if d = "contractors" then Except.error "fetch failed"
        else Except.ok (log ++ [d])) "contractors" ([] : List String) =
      Except.error "fetch failed") ∧
    IngestJob_run (DATASET_CONFIG_keys ++ ["permits"])
        (fun d (log : List String) =>
          if d = "contractors" then Except.error "fetch failed"
          else Except.ok (log ++ [d]))
        ["contractors", "permits"] [] = Except.error "fetch failed" := by
  refine ⟨by decide, by rfl, ?_⟩
  exact c2_failure_not_isolated (DATASET_CONFIG_keys ++ ["permits"]) _
    "contractors" ["permits"] [] "fetch failed" (by decide) (by rfl)

/-! ## Crash atomicity of the curated write (r2_storage.py 48-53,
ingest_job.py 205-208, claim C1)

A finer model exposing the intermediate states a crash can leave behind.
Writing a file through `Path.write_bytes` / `DataFrame.to_parquet` opens the
target truncating it and then writes the data: a crash in between leaves a
partially-written file at that path.  `Path.replace` is a single atomic
rename.  `R2FS.write_bytes` writes `key + ".tmp"` and then renames it over
the key; the curated merge write at ingest_job.py line 208 calls
`df_final.to_parquet(target)` on the final path directly, without the
temp-and-rename helper. -/

inductive FileData where
  | complete (c : Content) : FileData
  | truncated : FileData
deriving DecidableEq

abbrev FStore := List (String × FileData)

def fsSet : FStore → String → FileData → FStore
  | [], k, d => [(k, d)]
  | kc :: rest, k, d => if kc.1 == k then (k, d) :: rest else kc :: fsSet rest k d

def fsGet : FStore → String → Option FileData
  | [], _ => none
  | kc :: rest, k => if kc.1 == k then some kc.2 else fsGet rest k

def fsRemove (s : FStore) (k : String) : FStore :=
  s.filter (fun kc => !(kc.1 == k))

/-- `Path.replace` (r2_storage.py line 53): one atomic step moving the file
at `src` over `dst`. -/
def fsRename (s : FStore) (src dst : String) : FStore :=
  match fsGet s src with
  | some d => fsSet (fsRemove s src) dst d
  | none => s

/-- The observable store states during an in-place file write (truncate,
then the completed data): the states a crash can expose. -/
def pathWriteStates (s : FStore) (k : String) (c : Content) : List FStore :=
  [fsSet s k FileData.truncated,
   fsSet (fsSet s k FileData.truncated) k (FileData.complete c)]

/-- The observable states of `R2FS.write_bytes(key, data)` (r2_storage.py
lines 48-53): write `key + ".tmp"` in place, then atomically rename it over
`key`. -/
def write_bytes_states (s : FStore) (k : String) (c : Content) : List FStore :=
  let tmp := k ++ ".tmp"
  let s1 := fsSet s tmp FileData.truncated
  let s2 := fsSet s1 tmp (FileData.complete c)
  [s1, s2, fsRename s2 tmp k]

/-- The observable states of `df_final.to_parquet(target)` (ingest_job.py
line 208): the final path is written in place. -/
def to_parquet_states (s : FStore) (k : String) (c : Content) : List FStore :=
  pathWriteStates s k c

/-- Claim C1 fails on the code (code bug): the curated merge write is a
direct in-place `to_parquet` of the final path, so the state after its first
step has the curated key truncated — a crash there destroys the previously
committed table and exposes a partial file.  The repository's own atomic
helper `write_bytes` (unused for this write) keeps the old table intact in
every non-final state and installs the new content only by the final
rename. -/
theorem c1_curated_write_not_atomic :
    (∃ mid ∈ to_parquet_states
        [(curated_data_key "contractors",
          FileData.complete (Content.table [[("contractor_id", "1")]]))]
        (curated_data_key "contractors")
        (Content.table [[("contractor_id", "1"), ("v", "b")]]),
      fsGet mid (curated_data_key "contractors") = some FileData.truncated) ∧
    (∀ mid ∈ (write_bytes_states
        [(curated_data_key "contractors",
          FileData.complete (Content.table [[("contractor_id", "1")]]))]
        (curated_data_key "contractors")
        (Content.table [[("contractor_id", "1"), ("v", "b")]])).dropLast,
      fsGet mid (curated_data_key "contractors") =
        some (FileData.complete (Content.table [[("contractor_id", "1")]]))) ∧
    ((write_bytes_states
        [(curated_data_key "contractors",
          FileData.complete (Content.table [[("contractor_id", "1")]]))]
        (curated_data_key "contractors")
        (Content.table [[("contractor_id", "1"), ("v", "b")]])).getLast?.map
      (fun s' => fsGet s' (curated_data_key "contractors")) =
        some (some (FileData.complete
          (Content.table [[("contractor_id", "1"), ("v", "b")]])))) := by
  refine ⟨?_, by decide, by decide⟩
  refine ⟨fsSet [(curated_data_key "contractors",
    FileData.complete (Content.table [[("contractor_id", "1")]]))]
    (curated_data_key "contractors") FileData.truncated, ?_, by decide⟩
  decide
